import Mathlib

/-!
Shallow embedding of the scoring engine of the Steam-Recommender repository
(`src/main.py`): `calculate_tag_weights` and `find_recommendations`.

Modelling conventions:
* Python dicts that are iterated or built incrementally (the catalog, the
  `tag_playtime` accumulator, `tag_weights`) become insertion-ordered
  association lists `List (String × _)`; `dict[k] = v` on an existing key
  keeps the key's position, a new key is appended at the end, exactly as
  CPython preserves insertion order.
* Python float arithmetic (ratings, scores, the freshness multipliers 1.2,
  0.9, 1.0) is modelled over `ℚ`.
* Python's stable `sorted` / `list.sort` is modelled by Mathlib's stable
  `List.insertionSort`, which places an earlier element before later
  elements with an equal key.
* `int(s)` on the date suffix is modelled by `parseIntChars?`, returning
  `none` where Python raises `ValueError` (optional surrounding whitespace,
  optional sign, then a nonempty digit run; Python's underscore-separator
  extension is not modelled).
-/

namespace SteamRec

/-- Module-level constant `MIN_PLAYTIME_MINUTES = 120` from `main.py`. -/
def MIN_PLAYTIME_MINUTES : Nat := 120

/-- Module-level constant `MIN_RATING_PERCENT = 0.80` from `main.py`. -/
def MIN_RATING_PERCENT : ℚ := 8/10

/-- Module-level constant `MIN_REVIEWS_COUNT = 20000` from `main.py`. -/
def MIN_REVIEWS_COUNT : Nat := 20000

/-- The hardcoded `current_year = 2026` inside `find_recommendations`. -/
def current_year : Int := 2026

/-- The `tags` field of a catalog entry: the JSON data sometimes stores a
list of tag names and sometimes a mapping from tag name to a number, which
is why both functions branch on `isinstance(tags, dict)`. -/
inductive TagsField where
  | seq : List String → TagsField
  | map : List (String × Nat) → TagsField
deriving DecidableEq

/-- The dict-or-list normalisation `if isinstance(tags, dict): tags = list(tags.keys())`
performed in both `calculate_tag_weights` and `find_recommendations`. -/
def normalizeTags : TagsField → List String
  | .seq ts => ts
  | .map kvs => kvs.map Prod.fst

/-- One record of the user's usage history, as consumed by
`calculate_tag_weights`: `appid` (already stringified, as `str(game.get('appid'))`
does) and `playtime_forever` in minutes. -/
structure UsageRecord where
  appid : String
  playtime_forever : Nat
deriving DecidableEq

/-- One catalog entry of `games.json`, with the fields the engine reads. -/
structure CatalogEntry where
  name : String
  tags : TagsField
  positive : Nat
  negative : Nat
  release_date : String
deriving DecidableEq

/-- The catalog dict, keyed by app id, in iteration order. -/
abbrev Catalog := List (String × CatalogEntry)

/-- Python dict lookup on an association list (keys are unique in a dict,
so first match suffices). -/
def alookup {β : Type} : List (String × β) → String → Option β
  | [], _ => none
  | (a, b) :: rest, k => if a = k then some b else alookup rest k

/-- The dict update `tag_playtime[tag] = tag_playtime.get(tag, 0) + playtime`:
update an existing key in place, else append the new key at the end. -/
def bumpTag : List (String × Nat) → String → Nat → List (String × Nat)
  | [], tag, pt => [(tag, pt)]
  | (t, v) :: rest, tag, pt =>
      if t = tag then (t, v + pt) :: rest else (t, v) :: bumpTag rest tag pt

/-- The inner `for tag in tags:` accumulation loop of `calculate_tag_weights`. -/
def addGameTags (acc : List (String × Nat)) (tags : List String) (pt : Nat) :
    List (String × Nat) :=
  tags.foldl (fun a t => bumpTag a t pt) acc

/-- One iteration of the `for game in user_games:` loop of
`calculate_tag_weights`; the state is `(tag_playtime, valid_games_count)`. -/
def tagPlaytimeStep (db : Catalog) (st : List (String × Nat) × Nat)
    (r : UsageRecord) : List (String × Nat) × Nat :=
  if r.playtime_forever < MIN_PLAYTIME_MINUTES then st
  else
    match alookup db r.appid with
    | none => st
    | some e => (addGameTags st.1 (normalizeTags e.tags) r.playtime_forever, st.2 + 1)

/-- The full accumulation loop of `calculate_tag_weights`, before sorting. -/
def tagPlaytime (user_games : List UsageRecord) (db : Catalog) :
    List (String × Nat) × Nat :=
  user_games.foldl (tagPlaytimeStep db) ([], 0)

/-- The sort key of `sorted(tag_playtime.items(), key=lambda x: x[1])`:
ascending by accumulated playtime. -/
def ptLe (p q : String × Nat) : Prop := p.2 ≤ q.2

instance : DecidableRel ptLe := fun p q => inferInstanceAs (Decidable (p.2 ≤ q.2))

instance : IsTotal (String × Nat) ptLe := ⟨fun p q => Nat.le_total p.2 q.2⟩

instance : IsTrans (String × Nat) ptLe := ⟨fun _ _ _ h h' => Nat.le_trans h h'⟩

/-- The dict comprehension `{tag: rank + 1 for rank, (tag, time) in
enumerate(sorted_tags)}`: pair each tag with its 1-based position. -/
def rankFrom (n : Nat) : List (String × Nat) → List (String × Nat)
  | [] => []
  | (t, _) :: rest => (t, n) :: rankFrom (n + 1) rest

/-- The function `calculate_tag_weights(user_games, all_games_db)` from `main.py`: returns
the tag-weight mapping (in its dict insertion order) and `valid_games_count`. -/
def calculate_tag_weights (user_games : List UsageRecord)
    (all_games_db : Catalog) : List (String × Nat) × Nat :=
  let acc := tagPlaytime user_games all_games_db
  (rankFrom 1 (List.insertionSort ptLe acc.1), acc.2)

/-- Python `str[-4:]`: the last four characters (the whole string when it is
shorter than four characters). -/
def lastN (s : String) (n : Nat) : List Char := s.data.drop (s.data.length - n)

/-- A nonempty all-digit character run parsed as a natural number;
`none` otherwise. -/
def parseNat? (cs : List Char) : Option Nat :=
  if cs.isEmpty then none
  else
    cs.foldl
      (fun acc c =>
        acc.bind fun n => if c.isDigit then some (n * 10 + (c.toNat - 48)) else none)
      (some 0)

/-- Python `int(...)` on a character run: optional surrounding whitespace,
optional single sign, then a nonempty digit run; `none` where Python raises
`ValueError`. -/
def parseIntChars? (cs : List Char) : Option Int :=
  let cs := cs.dropWhile Char.isWhitespace
  let cs := (cs.reverse.dropWhile Char.isWhitespace).reverse
  match cs with
  | '-' :: rest => (parseNat? rest).map (fun n => -(n : Int))
  | '+' :: rest => (parseNat? rest).map (fun n => (n : Int))
  | _ => (parseNat? cs).map (fun n => (n : Int))

/-- The guarded release-year extraction of `find_recommendations`:
`int(str(raw_date)[-4:])`, with the `except` branch yielding `1900`. -/
def parse_release_year (raw_date : String) : Int :=
  (parseIntChars? (lastN raw_date 4)).getD 1900

/-- The freshness multiplier computed from `age_diff = current_year - release_year`. -/
def freshness_bonus (age_diff : Int) : ℚ :=
  if age_diff ≤ 5 then 12/10 else if age_diff > 10 then 9/10 else 1

/-- The generator sum `sum(tag_weights.get(tag, 0) for tag in game_tags)`. -/
def weight_sum (tag_weights : List (String × Nat)) (tags : List String) : Nat :=
  (tags.map (fun t => (alookup tag_weights t).getD 0)).sum

/-- One surviving or skipped candidate, as appended to `candidates`. -/
structure Candidate where
  name : String
  appid : String
  score : ℚ
  rating_val : ℚ
  reviews : Nat
  release_year : Int
  link : String
deriving DecidableEq

/-- The body of the `for app_id, data in all_games_db.items():` loop of
`find_recommendations`: `none` when a `continue` fires, otherwise the
candidate that gets appended. Filter order follows the source exactly. -/
def processEntry (tag_weights : List (String × Nat)) (owned_ids : List String)
    (min_year : Int) (app_id : String) (data : CatalogEntry) : Option Candidate :=
  if app_id ∈ owned_ids then none
  else
    let release_year := parse_release_year data.release_date
    if release_year < min_year then none
    else
      let total_reviews := data.positive + data.negative
      if total_reviews = 0 then none
      else
        let rating : ℚ := (data.positive : ℚ) / (total_reviews : ℚ)
        if total_reviews < MIN_REVIEWS_COUNT ∨ rating < MIN_RATING_PERCENT then none
        else
          let game_tags := normalizeTags data.tags
          if game_tags = [] then none
          else
            let current_weight_sum := weight_sum tag_weights game_tags
            let avg_score : ℚ := (current_weight_sum : ℚ) / (game_tags.length : ℚ)
            let final_score := avg_score * freshness_bonus (current_year - release_year)
            some
              { name := data.name
                appid := app_id
                score := final_score
                rating_val := rating
                reviews := total_reviews
                release_year := release_year
                link := "https://store.steampowered.com/app/" ++ app_id ++ "/" }

/-- The `candidates` list before the final sort, in catalog iteration order. -/
def candidate_list (db : Catalog) (tag_weights : List (String × Nat))
    (owned_ids : List String) (min_year : Int) : List Candidate :=
  db.filterMap (fun p => processEntry tag_weights owned_ids min_year p.1 p.2)

/-- The sort order of `candidates.sort(key=lambda x: x['score'], reverse=True)`:
descending by final score. -/
def scoreGe (a b : Candidate) : Prop := b.score ≤ a.score

instance : DecidableRel scoreGe := fun a b => inferInstanceAs (Decidable (b.score ≤ a.score))

instance : IsTotal Candidate scoreGe := ⟨fun a b => le_total b.score a.score⟩

instance : IsTrans Candidate scoreGe := ⟨fun _ _ _ h h' => le_trans h' h⟩

/-- The function `find_recommendations(all_games_db, tag_weights, owned_ids, min_year)`
from `main.py`: filter and score every catalog entry, then stably sort the
candidates descending by score. -/
def find_recommendations (all_games_db : Catalog)
    (tag_weights : List (String × Nat)) (owned_ids : List String)
    (min_year : Int) : List Candidate :=
  List.insertionSort scoreGe (candidate_list all_games_db tag_weights owned_ids min_year)

/-! ### Concrete fixtures used to exercise the theorems -/

/-- The two-entry catalog of the spec's worked scenario (§8). -/
def db6 : Catalog :=
  [("10", ⟨"GameA", .seq ["A", "B"], 18000, 2000, "2020"⟩),
   ("20", ⟨"GameB", .seq ["A"], 15000, 85000, "2023"⟩)]

/-- The single-record usage history of the spec's worked scenario (§8). -/
def usage6 : List UsageRecord := [⟨"10", 300⟩]

/-- A one-entry catalog whose entry survives every filter. -/
def db1 : Catalog := [("30", ⟨"G", .seq ["A"], 25000, 0, "2024"⟩)]

/-- A weight map giving tag `A` weight 2. -/
def w1 : List (String × Nat) := [("A", 2)]

/-- The candidate `find_recommendations db1 w1 [] 2000` produces. -/
def c1 : Candidate :=
  ⟨"G", "30", 12/5, 1, 25000, 2024, "https://store.steampowered.com/app/30/"⟩

/-! ### Predicates the claims are stated with -/

/-- A tag accumulated from some qualifying usage record: the record meets the
playtime threshold, its item is in the catalog, and the tag is among that
entry's (normalised) tags. -/
def qualifying_tag (usage : List UsageRecord) (db : Catalog) (t : String) : Prop :=
  ∃ r ∈ usage, MIN_PLAYTIME_MINUTES ≤ r.playtime_forever ∧
    ∃ e, alookup db r.appid = some e ∧ t ∈ normalizeTags e.tags

/-- The weight map is a dense ranking: its weight values are exactly
`1..K` where `K` is the number of distinct accumulated tags, the accumulated
tags are exactly the qualifying ones, a tag of maximal accumulated playtime
carries weight `K`, and a tag of minimal accumulated playtime carries
weight `1`. -/
def dense_ranking_spec (usage : List UsageRecord) (db : Catalog) : Prop :=
  ((calculate_tag_weights usage db).1.map Prod.snd
      = List.range' 1 (tagPlaytime usage db).1.length) ∧
  (calculate_tag_weights usage db).1.length = (tagPlaytime usage db).1.length ∧
  ((tagPlaytime usage db).1.map Prod.fst).Nodup ∧
  (∀ t, t ∈ (tagPlaytime usage db).1.map Prod.fst ↔ qualifying_tag usage db t) ∧
  (∀ t, t ∈ (calculate_tag_weights usage db).1.map Prod.fst ↔
      qualifying_tag usage db t) ∧
  (∃ p ∈ (tagPlaytime usage db).1,
      (p.1, (tagPlaytime usage db).1.length) ∈ (calculate_tag_weights usage db).1 ∧
      ∀ q ∈ (tagPlaytime usage db).1, q.2 ≤ p.2) ∧
  (∃ p ∈ (tagPlaytime usage db).1,
      (p.1, 1) ∈ (calculate_tag_weights usage db).1 ∧
      ∀ q ∈ (tagPlaytime usage db).1, p.2 ≤ q.2)

/-- Every filter of `find_recommendations` held for a returned candidate:
not owned, recent enough, nonzero and sufficient review volume, sufficient
rating, and a source entry with a nonempty tag list. -/
def filter_spec (db : Catalog) (owned_ids : List String) (min_year : Int)
    (c : Candidate) : Prop :=
  c.appid ∉ owned_ids ∧
  min_year ≤ c.release_year ∧
  c.reviews ≠ 0 ∧
  MIN_REVIEWS_COUNT ≤ c.reviews ∧
  MIN_RATING_PERCENT ≤ c.rating_val ∧
  ∃ e, (c.appid, e) ∈ db ∧
    c.release_year = parse_release_year e.release_date ∧
    c.reviews = e.positive + e.negative ∧
    c.rating_val = (e.positive : ℚ) / ((e.positive + e.negative : Nat) : ℚ) ∧
    normalizeTags e.tags ≠ []

/-- The returned score is the average tag weight of the source entry times
the freshness multiplier of its parsed release year. -/
def score_spec (db : Catalog) (tag_weights : List (String × Nat))
    (c : Candidate) : Prop :=
  ∃ e, (c.appid, e) ∈ db ∧
    c.score = ((weight_sum tag_weights (normalizeTags e.tags) : ℚ)
        / ((normalizeTags e.tags).length : ℚ))
      * freshness_bonus (current_year - parse_release_year e.release_date)

/-- The rating division of a returned candidate had a nonzero divisor. -/
def division_spec (db : Catalog) (c : Candidate) : Prop :=
  0 < c.reviews ∧
  ((c.reviews : ℚ) ≠ 0) ∧
  ∃ e, (c.appid, e) ∈ db ∧
    c.reviews = e.positive + e.negative ∧
    c.rating_val = (e.positive : ℚ) / ((e.positive + e.negative : Nat) : ℚ) ∧
    c.rating_val * (c.reviews : ℚ) = (e.positive : ℚ)

/-- Canonicalise a tags field to the sequence shape: a mapping becomes the
sequence of its keys, a sequence is unchanged. -/
def canonicalTags : TagsField → TagsField
  | .seq ts => .seq ts
  | .map kvs => .seq (kvs.map Prod.fst)

/-- Canonicalise the tags field of one catalog entry. -/
def canonEntry (e : CatalogEntry) : CatalogEntry :=
  { e with tags := canonicalTags e.tags }

/-- Canonicalise every entry of a catalog. -/
def canonDB (db : Catalog) : Catalog :=
  db.map (fun p => (p.1, canonEntry p.2))

/-! ### Helper lemmas -/

theorem tagPlaytimeStep_skip {db : Catalog} {st : List (String × Nat) × Nat}
    {r : UsageRecord}
    (h : r.playtime_forever < MIN_PLAYTIME_MINUTES ∨ alookup db r.appid = none) :
    tagPlaytimeStep db st r = st := by
  unfold tagPlaytimeStep
  rcases h with h1 | h2
  · simp [h1]
  · rcases Nat.lt_or_ge r.playtime_forever MIN_PLAYTIME_MINUTES with hlt | hge
    · simp [hlt]
    · simp [Nat.not_lt.mpr hge, h2]

theorem processEntry_eq_some {w : List (String × Nat)} {o : List String}
    {y : Int} {a : String} {d : CatalogEntry} {c : Candidate}
    (h : processEntry w o y a d = some c) :
    a ∉ o ∧
    y ≤ parse_release_year d.release_date ∧
    d.positive + d.negative ≠ 0 ∧
    MIN_REVIEWS_COUNT ≤ d.positive + d.negative ∧
    MIN_RATING_PERCENT ≤ (d.positive : ℚ) / ((d.positive + d.negative : Nat) : ℚ) ∧
    normalizeTags d.tags ≠ [] ∧
    c = { name := d.name
          appid := a
          score := ((weight_sum w (normalizeTags d.tags) : ℚ)
              / ((normalizeTags d.tags).length : ℚ))
            * freshness_bonus (current_year - parse_release_year d.release_date)
          rating_val := (d.positive : ℚ) / ((d.positive + d.negative : Nat) : ℚ)
          reviews := d.positive + d.negative
          release_year := parse_release_year d.release_date
          link := "https://store.steampowered.com/app/" ++ a ++ "/" } := by
  simp only [processEntry] at h
  split_ifs at h with h1 h2 h3 h4 h5
  rw [not_or] at h4
  refine ⟨h1, le_of_not_lt h2, h3, Nat.le_of_not_lt h4.1, le_of_not_lt h4.2, h5, ?_⟩
  exact (Option.some.injEq _ _ ▸ h).symm

theorem mem_find_recommendations {db : Catalog} {w : List (String × Nat)}
    {o : List String} {y : Int} {c : Candidate} :
    c ∈ find_recommendations db w o y ↔
      ∃ p, p ∈ db ∧ processEntry w o y p.1 p.2 = some c := by
  unfold find_recommendations candidate_list
  rw [List.mem_insertionSort, List.mem_filterMap]

/-! ### C5: no qualifying usage yields an empty profile -/

/-- C5. When no usage record both meets the playtime threshold and has its
item id present in the catalog (which covers empty usage as well),
`calculate_tag_weights` returns the empty weight mapping and a qualifying
count of `0`. -/
theorem profile_no_qualifying (usage : List UsageRecord) (db : Catalog)
    (h : ∀ r ∈ usage,
      r.playtime_forever < MIN_PLAYTIME_MINUTES ∨ alookup db r.appid = none) :
    calculate_tag_weights usage db = ([], 0) := by
  have key : tagPlaytime usage db = ([], 0) := by
    unfold tagPlaytime
    induction usage with
    | nil => rfl
    | cons r rest ih =>
      rw [List.foldl_cons, tagPlaytimeStep_skip (h r (List.mem_cons_self r rest))]
      exact ih fun r' hr' => h r' (List.mem_cons_of_mem _ hr')
  simp [calculate_tag_weights, key, rankFrom]

theorem profile_no_qualifying_witness :
    (∀ r ∈ [(⟨"42", 999⟩ : UsageRecord)],
      r.playtime_forever < MIN_PLAYTIME_MINUTES ∨
        alookup ([] : Catalog) r.appid = none) ∧
    calculate_tag_weights [⟨"42", 999⟩] ([] : Catalog) = ([], 0) :=
  ⟨by decide, profile_no_qualifying [⟨"42", 999⟩] [] (by decide)⟩

/-! ### C9: empty weight map does not imply a zero qualifying count -/

/-- C9. An empty weight mapping does not imply `qualifying_count = 0`: a
qualifying record whose catalog entry has no tags bumps the counter while
contributing nothing to the mapping. -/
theorem profile_empty_weights_positive_count :
    ∃ (usage : List UsageRecord) (db : Catalog),
      (calculate_tag_weights usage db).1 = [] ∧
        0 < (calculate_tag_weights usage db).2 :=
  ⟨[⟨"10", 300⟩], [("10", ⟨"G", .seq [], 0, 0, "2020"⟩)], by decide, by decide⟩

/-! ### Stability of the final sort -/

theorem filter_orderedInsert_score (s : ℚ) (c : Candidate) (l : List Candidate) :
    (List.orderedInsert scoreGe c l).filter (fun x => decide (x.score = s))
      = if c.score = s
        then c :: l.filter (fun x => decide (x.score = s))
        else l.filter (fun x => decide (x.score = s)) := by
  induction l with
  | nil =>
    simp only [List.orderedInsert, List.filter]
    split_ifs with h <;> simp [h]
  | cons d rest ih =>
    by_cases hgd : scoreGe c d
    · simp only [List.orderedInsert, if_pos hgd, List.filter_cons]
      split_ifs with h1 <;> simp_all
    · have hlt : c.score < d.score := lt_of_not_le hgd
      simp only [List.orderedInsert, if_neg hgd, List.filter_cons, ih]
      by_cases hcs : c.score = s
      · have hds : ¬ d.score = s := by rw [← hcs]; exact (ne_of_gt hlt)
        simp [hcs, hds]
      · simp [hcs]

theorem filter_insertionSort_score (s : ℚ) (l : List Candidate) :
    (List.insertionSort scoreGe l).filter (fun x => decide (x.score = s))
      = l.filter (fun x => decide (x.score = s)) := by
  induction l with
  | nil => rfl
  | cons c rest ih =>
    rw [List.insertionSort, filter_orderedInsert_score, ih, List.filter_cons]
    split_ifs with h <;> simp_all

/-! ### C4: output ordering -/

/-- C4. The output of `find_recommendations` is a permutation of the
candidate list built in catalog iteration order, is sorted descending by
score, and is stable: for every score value, the candidates carrying it
appear in exactly their catalog-iteration relative order. -/
theorem rank_sorted_and_stable (db : Catalog) (w : List (String × Nat))
    (o : List String) (y : Int) :
    List.Sorted scoreGe (find_recommendations db w o y) ∧
    (find_recommendations db w o y).Perm (candidate_list db w o y) ∧
    ∀ s : ℚ, (find_recommendations db w o y).filter (fun c => decide (c.score = s))
      = (candidate_list db w o y).filter (fun c => decide (c.score = s)) :=
  ⟨List.sorted_insertionSort scoreGe _, List.perm_insertionSort scoreGe _,
   fun s => filter_insertionSort_score s _⟩

/-! ### Accumulator lemmas for the profile -/

theorem mem_bumpTag_keys {acc : List (String × Nat)} {tag : String} {pt : Nat}
    {x : String} :
    x ∈ (bumpTag acc tag pt).map Prod.fst ↔ x = tag ∨ x ∈ acc.map Prod.fst := by
  induction acc with
  | nil => simp [bumpTag]
  | cons p rest ih =>
    obtain ⟨t, v⟩ := p
    by_cases h : t = tag
    · subst h
      simp [bumpTag]
    · simp [bumpTag, h, ih]
      tauto

theorem bumpTag_keys_nodup {acc : List (String × Nat)} {tag : String} {pt : Nat}
    (h : (acc.map Prod.fst).Nodup) : ((bumpTag acc tag pt).map Prod.fst).Nodup := by
  induction acc with
  | nil => simp [bumpTag]
  | cons p rest ih =>
    obtain ⟨t, v⟩ := p
    simp only [List.map_cons, List.nodup_cons] at h
    by_cases ht : t = tag
    · subst ht
      have heq : bumpTag ((t, v) :: rest) t pt = (t, v + pt) :: rest := by
        simp [bumpTag]
      rw [heq, List.map_cons, List.nodup_cons]
      exact h
    · simp only [bumpTag, if_neg ht, List.map_cons, List.nodup_cons]
      refine ⟨?_, ih h.2⟩
      intro hc
      rcases mem_bumpTag_keys.mp hc with hc1 | hc2
      · exact ht hc1
      · exact h.1 hc2

theorem addGameTags_cons (acc : List (String × Nat)) (t : String)
    (ts : List String) (pt : Nat) :
    addGameTags acc (t :: ts) pt = addGameTags (bumpTag acc t pt) ts pt := rfl

theorem mem_addGameTags_keys {tags : List String} {acc : List (String × Nat)}
    {pt : Nat} {x : String} :
    x ∈ (addGameTags acc tags pt).map Prod.fst ↔
      x ∈ tags ∨ x ∈ acc.map Prod.fst := by
  induction tags generalizing acc with
  | nil => simp [addGameTags]
  | cons t ts ih =>
    rw [addGameTags_cons, ih, mem_bumpTag_keys]
    simp [List.mem_cons]
    tauto

theorem addGameTags_keys_nodup {tags : List String} {acc : List (String × Nat)}
    {pt : Nat} (h : (acc.map Prod.fst).Nodup) :
    ((addGameTags acc tags pt).map Prod.fst).Nodup := by
  induction tags generalizing acc with
  | nil => exact h
  | cons t ts ih => rw [addGameTags_cons]; exact ih (bumpTag_keys_nodup h)

theorem qualifying_tag_cons {r : UsageRecord} {rest : List UsageRecord}
    {db : Catalog} {x : String} :
    qualifying_tag (r :: rest) db x ↔
      (MIN_PLAYTIME_MINUTES ≤ r.playtime_forever ∧
        ∃ e, alookup db r.appid = some e ∧ x ∈ normalizeTags e.tags) ∨
      qualifying_tag rest db x := by
  unfold qualifying_tag
  rw [List.exists_mem_cons_iff]

theorem mem_tagPlaytime_foldl_keys (usage : List UsageRecord) (db : Catalog)
    (st : List (String × Nat) × Nat) (x : String) :
    (x ∈ (usage.foldl (tagPlaytimeStep db) st).1.map Prod.fst) ↔
      qualifying_tag usage db x ∨ x ∈ st.1.map Prod.fst := by
  induction usage generalizing st with
  | nil => simp [qualifying_tag]
  | cons r rest ih =>
    rw [List.foldl_cons, ih, qualifying_tag_cons]
    by_cases hpt : r.playtime_forever < MIN_PLAYTIME_MINUTES
    · rw [tagPlaytimeStep_skip (Or.inl hpt)]
      have : ¬ MIN_PLAYTIME_MINUTES ≤ r.playtime_forever := Nat.not_le.mpr hpt
      simp [this]
    · cases halk : alookup db r.appid with
      | none =>
        rw [tagPlaytimeStep_skip (Or.inr halk)]
        simp [halk]
      | some e =>
        have hge : MIN_PLAYTIME_MINUTES ≤ r.playtime_forever := Nat.le_of_not_lt hpt
        have hstep : tagPlaytimeStep db st r
            = (addGameTags st.1 (normalizeTags e.tags) r.playtime_forever,
               st.2 + 1) := by
          unfold tagPlaytimeStep
          rw [if_neg hpt, halk]
        rw [hstep]
        simp only [mem_addGameTags_keys]
        simp [halk, hge]
        tauto

theorem tagPlaytime_foldl_keys_nodup (usage : List UsageRecord) (db : Catalog)
    (st : List (String × Nat) × Nat) (h : (st.1.map Prod.fst).Nodup) :
    ((usage.foldl (tagPlaytimeStep db) st).1.map Prod.fst).Nodup := by
  induction usage generalizing st with
  | nil => exact h
  | cons r rest ih =>
    rw [List.foldl_cons]
    apply ih
    unfold tagPlaytimeStep
    split_ifs with hpt
    · exact h
    · cases halk : alookup db r.appid with
      | none => exact h
      | some e => exact addGameTags_keys_nodup h

/-! ### Ranking lemmas for the profile -/

theorem rankFrom_length (n : Nat) (l : List (String × Nat)) :
    (rankFrom n l).length = l.length := by
  induction l generalizing n with
  | nil => rfl
  | cons p rest ih => obtain ⟨t, v⟩ := p; simp [rankFrom, ih]

theorem rankFrom_map_snd (n : Nat) (l : List (String × Nat)) :
    (rankFrom n l).map Prod.snd = List.range' n l.length := by
  induction l generalizing n with
  | nil => rfl
  | cons p rest ih =>
    obtain ⟨t, v⟩ := p
    simp [rankFrom, List.range'_succ, ih]

theorem rankFrom_map_fst (n : Nat) (l : List (String × Nat)) :
    (rankFrom n l).map Prod.fst = l.map Prod.fst := by
  induction l generalizing n with
  | nil => rfl
  | cons p rest ih => obtain ⟨t, v⟩ := p; simp [rankFrom, ih]

theorem rankFrom_append (n : Nat) (l₁ l₂ : List (String × Nat)) :
    rankFrom n (l₁ ++ l₂) = rankFrom n l₁ ++ rankFrom (n + l₁.length) l₂ := by
  induction l₁ generalizing n with
  | nil => simp [rankFrom]
  | cons p rest ih =>
    obtain ⟨t, v⟩ := p
    show (t, n) :: rankFrom (n + 1) (rest ++ l₂)
        = (t, n) :: (rankFrom (n + 1) rest ++ rankFrom (n + (rest.length + 1)) l₂)
    rw [ih]
    have harith : n + 1 + rest.length = n + (rest.length + 1) := by omega
    rw [harith]

/-! ### C1: the profile is a dense ranking -/

/-- C1. When at least one tag was accumulated, the weight values of
`calculate_tag_weights` are exactly `1..K` (so a permutation with no gaps
or repeats) for `K` the number of distinct accumulated tags, the
accumulated tags are exactly the tags of qualifying records, a tag of
maximal accumulated playtime carries weight `K`, and a tag of minimal
accumulated playtime carries weight `1`. -/
theorem profile_weights_dense (usage : List UsageRecord) (db : Catalog)
    (h : (tagPlaytime usage db).1 ≠ []) :
    dense_ranking_spec usage db := by
  have hperm : (List.insertionSort ptLe (tagPlaytime usage db).1).Perm
      (tagPlaytime usage db).1 := List.perm_insertionSort ptLe _
  have hsorted : List.Sorted ptLe (List.insertionSort ptLe (tagPlaytime usage db).1) :=
    List.sorted_insertionSort ptLe _
  have hw : (calculate_tag_weights usage db).1
      = rankFrom 1 (List.insertionSort ptLe (tagPlaytime usage db).1) := rfl
  have hlen : (List.insertionSort ptLe (tagPlaytime usage db).1).length
      = (tagPlaytime usage db).1.length := hperm.length_eq
  have hlne : List.insertionSort ptLe (tagPlaytime usage db).1 ≠ [] := by
    intro hnil
    exact h (List.Perm.eq_nil (hnil ▸ hperm.symm))
  have hfoldl : (tagPlaytime usage db) = usage.foldl (tagPlaytimeStep db) ([], 0) := rfl
  have hkeys : ∀ t, t ∈ (tagPlaytime usage db).1.map Prod.fst ↔
      qualifying_tag usage db t := by
    intro t
    rw [hfoldl, mem_tagPlaytime_foldl_keys]
    simp
  refine ⟨?_, ?_, ?_, hkeys, ?_, ?_, ?_⟩
  · rw [hw, rankFrom_map_snd, hlen]
  · rw [hw, rankFrom_length, hlen]
  · rw [hfoldl]
    exact tagPlaytime_foldl_keys_nodup usage db ([], 0) (by simp)
  · intro t
    rw [hw, rankFrom_map_fst, (hperm.map Prod.fst).mem_iff, hkeys]
  · -- a maximal-playtime tag receives weight K
    obtain ⟨l', p, hsplit⟩ :
        ∃ l' p, List.insertionSort ptLe (tagPlaytime usage db).1 = l' ++ [p] :=
      ⟨_, _, (List.dropLast_append_getLast hlne).symm⟩
    have hp_mem_l : p ∈ List.insertionSort ptLe (tagPlaytime usage db).1 := by
      rw [hsplit]; exact List.mem_append_right _ (List.mem_singleton_self p)
    have hp_mem_tp : p ∈ (tagPlaytime usage db).1 := hperm.mem_iff.mp hp_mem_l
    have hlen' : l'.length + 1 = (tagPlaytime usage db).1.length := by
      rw [← hlen, hsplit]; simp
    refine ⟨p, hp_mem_tp, ?_, ?_⟩
    · rw [hw, hsplit, rankFrom_append]
      apply List.mem_append_right
      obtain ⟨t, v⟩ := p
      simp only [rankFrom, List.mem_singleton, Prod.mk.injEq, true_and]
      omega
    · intro q hq
      have hq_l : q ∈ l' ++ [p] := hsplit ▸ hperm.mem_iff.mpr hq
      have hsorted' : List.Pairwise ptLe (l' ++ [p]) := hsplit ▸ hsorted
      rcases List.mem_append.mp hq_l with hq' | hq'
      · exact (List.pairwise_append.mp hsorted').2.2 q hq' p (List.mem_singleton_self p)
      · rw [List.mem_singleton.mp hq']
  · -- a minimal-playtime tag receives weight 1
    obtain ⟨p₀, tl, hcons⟩ := List.exists_cons_of_ne_nil hlne
    have hp₀_mem : p₀ ∈ (tagPlaytime usage db).1 := by
      apply hperm.mem_iff.mp
      rw [hcons]
      exact List.mem_cons_self _ _
    refine ⟨p₀, hp₀_mem, ?_, ?_⟩
    · rw [hw, hcons]
      obtain ⟨t, v⟩ := p₀
      simp [rankFrom]
    · intro q hq
      have hq_l : q ∈ p₀ :: tl := hcons ▸ hperm.mem_iff.mpr hq
      have hsorted' : List.Pairwise ptLe (p₀ :: tl) := hcons ▸ hsorted
      rcases List.mem_cons.mp hq_l with rfl | hq'
      · exact le_refl _
      · exact (List.pairwise_cons.mp hsorted').1 q hq'

/-! ### C2, C3, C7, C8: properties of every returned candidate -/

/-- C2. Every candidate returned by `find_recommendations` passed every
filter: its id is not owned, its parsed release year is at least the
threshold, its review total is nonzero and at least `MIN_REVIEWS_COUNT`,
its rating is at least `MIN_RATING_PERCENT`, and its source entry has a
nonempty tag list. -/
theorem rank_filters_sound (db : Catalog) (w : List (String × Nat))
    (o : List String) (y : Int) :
    ∀ c ∈ find_recommendations db w o y, filter_spec db o y c := by
  intro c hc
  obtain ⟨p, hp, hpe⟩ := mem_find_recommendations.mp hc
  obtain ⟨h1, h2, h3, h4, h5, h6, rfl⟩ := processEntry_eq_some hpe
  exact ⟨h1, h2, h3, h4, h5, p.2, by simpa using hp, rfl, rfl, rfl, h6⟩

/-- C3. Every returned candidate's score is the average weight of its source
entry's tags (absent tags contributing `0` through `alookup … |>.getD 0`)
times the freshness multiplier; the multiplier, taken at
`age = current_year - release_year` with `current_year = 2026`, is `1.2`
for `age ≤ 5` (so also at `age = 5`), `0.9` for `age > 10` (so at
`age = 11`), and `1.0` in between (so at `age = 10`). -/
theorem rank_score_formula (db : Catalog) (w : List (String × Nat))
    (o : List String) (y : Int) :
    (∀ c ∈ find_recommendations db w o y, score_spec db w c) ∧
    current_year = 2026 ∧
    (∀ n : Int, n ≤ 5 → freshness_bonus n = 12/10) ∧
    (∀ n : Int, 10 < n → freshness_bonus n = 9/10) ∧
    (∀ n : Int, 5 < n → n ≤ 10 → freshness_bonus n = 1) ∧
    freshness_bonus 5 = 12/10 ∧
    freshness_bonus 10 = 1 ∧
    freshness_bonus 11 = 9/10 ∧
    (∀ (tw : List (String × Nat)) (t : String) (ts : List String),
      alookup tw t = none → weight_sum tw (t :: ts) = weight_sum tw ts) := by
  refine ⟨?_, rfl, ?_, ?_, ?_, ?_, ?_, ?_, ?_⟩
  · intro c hc
    obtain ⟨p, hp, hpe⟩ := mem_find_recommendations.mp hc
    obtain ⟨_, _, _, _, _, _, rfl⟩ := processEntry_eq_some hpe
    exact ⟨p.2, by simpa using hp, rfl⟩
  · intro n hn; simp [freshness_bonus, hn]
  · intro n hn
    have h5 : ¬ n ≤ 5 := by omega
    simp [freshness_bonus, h5, hn]
  · intro n hn5 hn10
    have h5 : ¬ n ≤ 5 := by omega
    have h10 : ¬ 10 < n := by omega
    simp [freshness_bonus, h5, h10]
  · simp [freshness_bonus]
  · norm_num [freshness_bonus]
  · norm_num [freshness_bonus]
  · intro tw t ts h
    simp [weight_sum, h]

/-- C7. Every returned candidate's release year is the integer parsed from
the four trailing characters of its source entry's `release_date`, and a
failed parse yields the sentinel `1900` instead of an error. -/
theorem rank_release_year_parsing (db : Catalog) (w : List (String × Nat))
    (o : List String) (y : Int) :
    (∀ c ∈ find_recommendations db w o y,
      ∃ e, (c.appid, e) ∈ db ∧ c.release_year = parse_release_year e.release_date) ∧
    (∀ s, parseIntChars? (lastN s 4) = none → parse_release_year s = 1900) ∧
    (∀ s n, parseIntChars? (lastN s 4) = some n → parse_release_year s = n) := by
  refine ⟨?_, ?_, ?_⟩
  · intro c hc
    obtain ⟨p, hp, hpe⟩ := mem_find_recommendations.mp hc
    obtain ⟨_, _, _, _, _, _, rfl⟩ := processEntry_eq_some hpe
    exact ⟨p.2, by simpa using hp, rfl⟩
  · intro s h; simp [parse_release_year, h]
  · intro s n h; simp [parse_release_year, h]

/-- C8. The rating division of `find_recommendations` is only reached with a
nonzero divisor: every returned candidate has a positive review total, and
its rating times that (nonzero) total recovers the positive-vote count. -/
theorem rank_rating_division_safe (db : Catalog) (w : List (String × Nat))
    (o : List String) (y : Int) :
    ∀ c ∈ find_recommendations db w o y, division_spec db c := by
  intro c hc
  obtain ⟨p, hp, hpe⟩ := mem_find_recommendations.mp hc
  obtain ⟨_, _, h3, _, _, _, rfl⟩ := processEntry_eq_some hpe
  refine ⟨Nat.pos_of_ne_zero h3, ?_, p.2, by simpa using hp, rfl, rfl, ?_⟩
  · exact_mod_cast Nat.cast_ne_zero.mpr h3
  · exact div_mul_cancel₀ _ (by exact_mod_cast Nat.cast_ne_zero.mpr h3)

/-! ### C10: the dict-or-list tag shape is irrelevant -/

theorem normalizeTags_canonicalTags (t : TagsField) :
    normalizeTags (canonicalTags t) = normalizeTags t := by
  cases t <;> rfl

theorem alookup_canonDB (db : Catalog) (k : String) :
    alookup (canonDB db) k = (alookup db k).map canonEntry := by
  induction db with
  | nil => rfl
  | cons p rest ih =>
    obtain ⟨a, e⟩ := p
    by_cases h : a = k
    · simp [canonDB, alookup, h]
    · simp only [canonDB, List.map_cons, alookup, if_neg h]
      simpa [canonDB] using ih

theorem processEntry_canonEntry (w : List (String × Nat)) (o : List String)
    (y : Int) (a : String) (e : CatalogEntry) :
    processEntry w o y a (canonEntry e) = processEntry w o y a e := by
  obtain ⟨nm, tg, pos, neg, rd⟩ := e
  simp only [processEntry, canonEntry, normalizeTags_canonicalTags]

theorem tagPlaytimeStep_canonDB (db : Catalog) (st : List (String × Nat) × Nat)
    (r : UsageRecord) : tagPlaytimeStep (canonDB db) st r = tagPlaytimeStep db st r := by
  unfold tagPlaytimeStep
  rw [alookup_canonDB]
  cases alookup db r.appid with
  | none => rfl
  | some e => simp [canonEntry, normalizeTags_canonicalTags]

/-- C10. Both `calculate_tag_weights` and `find_recommendations` are
invariant under replacing every mapping-shaped `tags` field by the sequence
of its keys: each function first normalises the shape and then never looks
at it again; in particular a mapping's normalisation is by construction the
sequence of its keys. -/
theorem tags_shape_invariant (usage : List UsageRecord) (db : Catalog)
    (w : List (String × Nat)) (o : List String) (y : Int) :
    calculate_tag_weights usage (canonDB db) = calculate_tag_weights usage db ∧
    find_recommendations (canonDB db) w o y = find_recommendations db w o y ∧
    ∀ kvs : List (String × Nat),
      normalizeTags (.map kvs) = normalizeTags (.seq (kvs.map Prod.fst)) := by
  refine ⟨?_, ?_, fun kvs => rfl⟩
  · unfold calculate_tag_weights tagPlaytime
    have hstep : tagPlaytimeStep (canonDB db) = tagPlaytimeStep db := by
      funext st r
      exact tagPlaytimeStep_canonDB db st r
    rw [hstep]
  · unfold find_recommendations candidate_list canonDB
    rw [List.filterMap_map]
    have hfun : ((fun p => processEntry w o y p.1 p.2) ∘
          fun p : String × CatalogEntry => (p.1, canonEntry p.2))
        = fun p : String × CatalogEntry => processEntry w o y p.1 p.2 := by
      funext p
      exact processEntry_canonEntry w o y p.1 p.2
    rw [hfun]

attribute [local semireducible] Rat.mul Rat.inv Rat.add Rat.sub

/-! ### C6: the spec's worked scenario -/

/-- C6. On the worked scenario (§8 of the spec): `calculate_tag_weights`
returns the deterministic tie-break variant `A ↦ 1, B ↦ 2` (both tags
accumulate 300 minutes) with qualifying count `1`, and
`find_recommendations` over the same catalog with item `"10"` owned
returns the empty list, item `"20"` having rating `0.15 < 0.80`. -/
theorem scenario_profile_and_empty_rank :
    calculate_tag_weights usage6 db6 = ([("A", 1), ("B", 2)], 1) ∧
    find_recommendations db6 (calculate_tag_weights usage6 db6).1 ["10"] 2000 = [] ∧
    (15000 : ℚ) / ((15000 : ℚ) + (85000 : ℚ)) = 15/100 := by
  refine ⟨by decide, by decide, by decide⟩

/-! ### Witnesses: the quantified theorems applied at concrete inputs -/

theorem profile_weights_dense_witness :
    (tagPlaytime usage6 db6).1 ≠ [] ∧ dense_ranking_spec usage6 db6 :=
  ⟨by decide, profile_weights_dense usage6 db6 (by decide)⟩

theorem rank_filters_sound_witness :
    c1 ∈ find_recommendations db1 w1 [] 2000 ∧ filter_spec db1 [] 2000 c1 :=
  ⟨by decide, rank_filters_sound db1 w1 [] 2000 c1 (by decide)⟩

theorem rank_score_formula_witness :
    (c1 ∈ find_recommendations db1 w1 [] 2000 ∧ score_spec db1 w1 c1) ∧
    ((2 : Int) ≤ 5 ∧ freshness_bonus 2 = 12/10) ∧
    ((10 : Int) < 16 ∧ freshness_bonus 16 = 9/10) ∧
    ((5 : Int) < 8 ∧ (8 : Int) ≤ 10 ∧ freshness_bonus 8 = 1) ∧
    (alookup w1 "Z" = none ∧ weight_sum w1 ("Z" :: ["A"]) = weight_sum w1 ["A"]) :=
  ⟨⟨by decide, (rank_score_formula db1 w1 [] 2000).1 c1 (by decide)⟩,
   ⟨by decide, (rank_score_formula db1 w1 [] 2000).2.2.1 2 (by decide)⟩,
   ⟨by decide, (rank_score_formula db1 w1 [] 2000).2.2.2.1 16 (by decide)⟩,
   ⟨by decide, by decide,
    (rank_score_formula db1 w1 [] 2000).2.2.2.2.1 8 (by decide) (by decide)⟩,
   ⟨by decide,
    (rank_score_formula db1 w1 [] 2000).2.2.2.2.2.2.2.2 w1 "Z" ["A"] (by decide)⟩⟩

theorem rank_release_year_parsing_witness :
    (∃ e, (c1.appid, e) ∈ db1 ∧ c1.release_year = parse_release_year e.release_date) ∧
    parse_release_year "abcd" = 1900 ∧
    parse_release_year "12 Jan, 2015" = 2015 :=
  ⟨(rank_release_year_parsing db1 w1 [] 2000).1 c1 (by decide),
   (rank_release_year_parsing db1 w1 [] 2000).2.1 "abcd" (by decide),
   (rank_release_year_parsing db1 w1 [] 2000).2.2 "12 Jan, 2015" 2015 (by decide)⟩

theorem rank_rating_division_safe_witness :
    c1 ∈ find_recommendations db1 w1 [] 2000 ∧ division_spec db1 c1 :=
  ⟨by decide, rank_rating_division_safe db1 w1 [] 2000 c1 (by decide)⟩

theorem rank_sorted_and_stable_witness :
    List.Sorted scoreGe (find_recommendations db6 w1 [] 2000) ∧
    (find_recommendations db6 w1 [] 2000).Perm (candidate_list db6 w1 [] 2000) ∧
    ∀ s : ℚ, (find_recommendations db6 w1 [] 2000).filter (fun c => decide (c.score = s))
      = (candidate_list db6 w1 [] 2000).filter (fun c => decide (c.score = s)) :=
  rank_sorted_and_stable db6 w1 [] 2000

theorem tags_shape_invariant_witness :
    calculate_tag_weights usage6 (canonDB db6) = calculate_tag_weights usage6 db6 ∧
    find_recommendations (canonDB db6) w1 ["10"] 2000
      = find_recommendations db6 w1 ["10"] 2000 ∧
    ∀ kvs : List (String × Nat),
      normalizeTags (.map kvs) = normalizeTags (.seq (kvs.map Prod.fst)) :=
  tags_shape_invariant usage6 db6 w1 ["10"] 2000

end SteamRec
